import Mathlib

/-!
# Verification of glyphs2ufo (`Lib/glyphsLib/builder/ufo.py`)

A shallow embedding, in Lean 4, of the conversion routines of
`glyphsLib.builder.ufo`: kerning translation with conflict resolution
(`load_kerning` / `remove_rule_if_conflict`), path drawing (`draw_paths`),
glyph width transcription (`load_glyph`), GDEF classification
(`build_gdef`), filter-string parsing (`parse_glyphs_filter`), glyph-order
computation (`to_ufos`), instance filtering (`filter_instances_by_family`)
and style-map name derivation (`generate_base_fonts` /
`build_stylemap_names`).  Python strings are embedded as `String`, numeric
kerning/width values as `Int`, Python `dict`s as insertion-ordered
association lists, and fallible code (KeyError, assertion failures) as
`Option`.
-/

namespace GlyphsUfo

/-! ## String primitives

Kernel-reduction-friendly wrappers over the character list underlying a
`String`.  `strCat` is Python string concatenation; `isPre p s` is
`s.startswith(p)`; `strDrop` drops a number of leading characters.
-/

/-- Concatenation of two strings (Python `+` on `str`). -/
def strCat (a b : String) : String := ⟨a.data ++ b.data⟩

/-- `isPre p s` is Python `s.startswith(p)`. -/
def isPre (p s : String) : Bool := decide (s.data.take p.data.length = p.data)

/-- Build a string back from a character list. -/
def ofChars (l : List Char) : String := ⟨l⟩

theorem isPre_strCat (p s : String) : isPre p (strCat p s) = true := by
  simp [isPre, strCat, List.take_left]

/-! ## Association lists with Python `dict` semantics

`alSet` updates the first occurrence in place (keys keep their insertion
position) or appends a fresh key at the end; `alGet` returns the first
binding; `alDel` removes the binding (Python `del`).
-/

/-- First binding of `key` (Python `d[key]`, as an `Option`). -/
def alGet {κ ν : Type} [DecidableEq κ] : List (κ × ν) → κ → Option ν
  | [], _ => none
  | (k, v) :: rest, key => if k = key then some v else alGet rest key

/-- Python `d[key] = val`: update in place or append. -/
def alSet {κ ν : Type} [DecidableEq κ] : List (κ × ν) → κ → ν → List (κ × ν)
  | [], key, val => [(key, val)]
  | (k, v) :: rest, key, val =>
    if k = key then (k, val) :: rest else (k, v) :: alSet rest key val

/-- Python `del d[key]` (drops the first binding, a no-op when absent). -/
def alDel {κ ν : Type} [DecidableEq κ] : List (κ × ν) → κ → List (κ × ν)
  | [], _ => []
  | (k, v) :: rest, key => if k = key then rest else (k, v) :: alDel rest key

theorem alGet_alSet_self {κ ν : Type} [DecidableEq κ]
    (d : List (κ × ν)) (k : κ) (v : ν) : alGet (alSet d k v) k = some v := by
  induction d with
  | nil => simp [alSet, alGet]
  | cons hd tl ih =>
    obtain ⟨k0, v0⟩ := hd
    by_cases h : k0 = k <;> simp [alSet, alGet, h, ih]

theorem alGet_alSet_ne {κ ν : Type} [DecidableEq κ]
    (d : List (κ × ν)) (k k' : κ) (v : ν) (h : k' ≠ k) :
    alGet (alSet d k v) k' = alGet d k' := by
  have hk : ¬ k = k' := fun hh => h hh.symm
  induction d with
  | nil => simp [alSet, alGet, hk]
  | cons hd tl ih =>
    obtain ⟨k0, v0⟩ := hd
    by_cases h0 : k0 = k
    · subst h0
      simp [alSet, alGet, hk]
    · simp [alSet, alGet, h0, ih]

theorem alGet_alDel_ne {κ ν : Type} [DecidableEq κ]
    (d : List (κ × ν)) (k k' : κ) (h : k' ≠ k) :
    alGet (alDel d k) k' = alGet d k' := by
  have hk : ¬ k = k' := fun hh => h hh.symm
  induction d with
  | nil => simp [alDel]
  | cons hd tl ih =>
    obtain ⟨k0, v0⟩ := hd
    by_cases h0 : k0 = k
    · subst h0
      simp [alDel, alGet, hk]
    · simp [alDel, alGet, h0, ih]

/-! ## Glyph width transcription (`load_glyph`, lines 794-804)

`category` and `subCategory` are the effective values after the
explicit-override-else-library-default resolution of lines 783-792; the
layer width is optional (`None` in Python leaves the target default
untouched).  The result records the width written to the target glyph
(`none` = target default untouched) and the
`com.schriftgestaltung.originalWidth` side-storage entry.
-/

/-- Explicit per-glyph override, else the library default
(lines 783-792 of `load_glyph`). -/
def effectiveAttr (overrideVal : Option String) (libVal : String) : String :=
  match overrideVal with
  | some v => v
  | none => libVal

/-- Outcome of the width logic of `load_glyph`. -/
structure WidthResult where
  targetWidth : Option Int
  originalWidth : Option Int
  deriving DecidableEq

/-- Lines 794-804 of `load_glyph`: zero the width of nonspacing marks,
preserving the original width in the glyph lib; otherwise copy the width
verbatim; a missing width writes nothing. -/
def loadGlyphWidth (category subCategory : String) (width : Option Int) :
    WidthResult :=
  match width with
  | none => ⟨none, none⟩
  | some w =>
    if category = "Mark" ∧ subCategory = "Nonspacing" ∧ w > 0 then
      ⟨some 0, some w⟩
    else
      ⟨some w, none⟩

/-! ## GDEF classification (`build_gdef`, lines 878-924) -/

/-- The three GDEF glyph classes assigned by `build_gdef`. -/
inductive GdefCls
  | base
  | liga
  | mark
  deriving DecidableEq

/-- An anchor name attaches when truthy and not starting with an
underscore (line 887 of `build_gdef`). -/
def anchorAttaches (name : String) : Bool :=
  name ≠ "" ∧ ¬ isPre "_" name

/-- `has_attaching_anchor` over a glyph's anchor names. -/
def hasAttachingAnchor (anchors : List String) : Bool :=
  anchors.any anchorAttaches

/-- The `if/elif/elif` classification of lines 918-924 of `build_gdef`:
Ligature, then Mark, then Base, first match wins, else no class. -/
def classifyGlyph (category subCategory : String) (anchors : List String) :
    Option GdefCls :=
  if subCategory = "Ligature" ∧ hasAttachingAnchor anchors then
    some GdefCls.liga
  else if category = "Mark" ∧
      (subCategory = "Nonspacing" ∨ subCategory = "Spacing Combining") then
    some GdefCls.mark
  else if hasAttachingAnchor anchors then
    some GdefCls.base
  else
    none

/-! ## Claim theorems (first group) -/

/-- C5: a glyph whose effective category/subcategory is Mark/Nonspacing
with a positive layer width gets target width 0 and its original width
preserved in the side-storage entry; any other category/subcategory gets
the declared width copied unchanged, and a missing width writes nothing to
the target. -/
theorem nonspacing_mark_width_zeroed
    (category subCategory : String) (w : Int) :
    (category = "Mark" → subCategory = "Nonspacing" → w > 0 →
      loadGlyphWidth category subCategory (some w) = ⟨some 0, some w⟩) ∧
    (¬ (category = "Mark" ∧ subCategory = "Nonspacing") →
      loadGlyphWidth category subCategory (some w) = ⟨some w, none⟩) ∧
    loadGlyphWidth category subCategory none = ⟨none, none⟩ := by
  refine ⟨fun hc hs hw => ?_, fun h => ?_, rfl⟩
  · simp [loadGlyphWidth, hc, hs, hw]
  · rcases Decidable.em (category = "Mark") with hc | hc
    · rcases Decidable.em (subCategory = "Nonspacing") with hs | hs
      · exact absurd ⟨hc, hs⟩ h
      · simp [loadGlyphWidth, hs]
    · simp [loadGlyphWidth, hc]

/-- Witness for C5 at category Mark / Nonspacing, width 120, and at
category Letter, width 120. -/
theorem nonspacing_mark_width_zeroed_witness :
    loadGlyphWidth "Mark" "Nonspacing" (some 120) = ⟨some 0, some 120⟩ ∧
    loadGlyphWidth "Letter" "Lowercase" (some 120) = ⟨some 120, none⟩ := by
  refine ⟨(nonspacing_mark_width_zeroed "Mark" "Nonspacing" 120).1
      rfl rfl (by decide), ?_⟩
  exact (nonspacing_mark_width_zeroed "Letter" "Lowercase" 120).2.1 (by decide)

/-- C6: GDEF classification assigns at most one class in the fixed
precedence order Ligature, Mark, Base, first match winning: a glyph with
subcategory exactly Ligature and an attaching anchor classifies Ligature
(whatever else holds); a Mark/Nonspacing-or-Spacing-Combining glyph that
is not Ligature-eligible classifies Mark; a glyph with an attaching anchor
satisfying neither condition classifies Base. -/
theorem gdef_classification_precedence
    (category subCategory : String) (anchors : List String) :
    (subCategory = "Ligature" → hasAttachingAnchor anchors = true →
      classifyGlyph category subCategory anchors = some GdefCls.liga) ∧
    (category = "Mark" →
      (subCategory = "Nonspacing" ∨ subCategory = "Spacing Combining") →
      ¬ (subCategory = "Ligature" ∧ hasAttachingAnchor anchors = true) →
      classifyGlyph category subCategory anchors = some GdefCls.mark) ∧
    (hasAttachingAnchor anchors = true → subCategory ≠ "Ligature" →
      ¬ (category = "Mark" ∧
        (subCategory = "Nonspacing" ∨ subCategory = "Spacing Combining")) →
      classifyGlyph category subCategory anchors = some GdefCls.base) := by
  refine ⟨fun hs ha => ?_, fun hc hs hn => ?_, fun ha hs hn => ?_⟩
  · simp [classifyGlyph, hs, ha]
  · rw [classifyGlyph, if_neg hn, if_pos ⟨hc, hs⟩]
  · rw [classifyGlyph, if_neg (fun hh => hs hh.1), if_neg hn, if_pos ha]

/-- Witness for C6: a Ligature-subcategory Mark-category glyph with an
attaching anchor classifies Ligature; a plain glyph with an attaching
anchor classifies Base. -/
theorem gdef_classification_precedence_witness :
    classifyGlyph "Mark" "Ligature" ["top"] = some GdefCls.liga ∧
    classifyGlyph "Letter" "Lowercase" ["top"] = some GdefCls.base := by
  refine ⟨(gdef_classification_precedence "Mark" "Ligature" ["top"]).1
      rfl (by decide), ?_⟩
  exact (gdef_classification_precedence "Letter" "Lowercase" ["top"]).2.2
    (by decide) (by decide) (by decide)

/-! ## Path drawing (`draw_paths`, lines 813-836)

A node carries a 2D position, a type string (`"line"`, `"curve"`,
`"qcurve"`, `"offcurve"`, ...) and a smoothness flag.  The point pen is
modelled by the list of events `draw_paths` performs on it; the `assert`
on open paths is modelled by returning `none` (an `AssertionError` aborts
the whole conversion with no partial result).
-/

/-- A `.glyphs` path node. -/
structure GSNode where
  position : Int × Int
  type : String
  smooth : Bool
  deriving DecidableEq

/-- A `.glyphs` path. -/
structure GSPath where
  closed : Bool
  nodes : List GSNode
  deriving DecidableEq

/-- One operation performed on the point pen. -/
inductive PenEvent
  | beginPath
  | addPoint (position : Int × Int) (segmentType : Option String)
      (smooth : Bool)
  | endPath
  deriving DecidableEq

/-- Lines 832-835: the point type, normalized to
line/curve/qcurve/`None`. -/
def normSegmentType (t : String) : Option String :=
  if t = "line" ∨ t = "curve" ∨ t = "qcurve" then some t else none

/-- The `addPoint` call of line 835 for one node. -/
def emitNode (n : GSNode) : PenEvent :=
  PenEvent.addPoint n.position (normSegmentType n.type) n.smooth

/-- Line 830: `nodes.insert(0, nodes.pop())` — move the last node to the
front. -/
def rotateStart (l : List GSNode) : List GSNode :=
  match l.getLast? with
  | none => l
  | some x => x :: l.dropLast

/-- One iteration of the `for path in paths` loop of `draw_paths`
(lines 816-836); `none` models the `assert` failing on an open path whose
first node is not a line node. -/
def drawOnePath (p : GSPath) : Option (List PenEvent) :=
  if p.nodes.isEmpty then
    some [PenEvent.beginPath, PenEvent.endPath]
  else if ¬ p.closed then
    match p.nodes with
    | [] => some [PenEvent.beginPath, PenEvent.endPath]
    | n :: rest =>
      if n.type = "line" then
        some (PenEvent.beginPath ::
          PenEvent.addPoint n.position (some "move") false ::
          (rest.map emitNode ++ [PenEvent.endPath]))
      else
        none
  else
    some (PenEvent.beginPath ::
      ((rotateStart p.nodes).map emitNode ++ [PenEvent.endPath]))

/-- `draw_paths` over the whole path list: the concatenated pen events,
or `none` as soon as one path trips the assertion. -/
def drawPaths : List GSPath → Option (List PenEvent)
  | [] => some []
  | p :: ps =>
    match drawOnePath p, drawPaths ps with
    | some e, some es => some (e ++ es)
    | _, _ => none

theorem drawPaths_none_of_mem (ps : List GSPath) (p : GSPath)
    (hmem : p ∈ ps) (hfail : drawOnePath p = none) : drawPaths ps = none := by
  induction ps with
  | nil => cases hmem
  | cons q qs ih =>
    rcases List.mem_cons.mp hmem with h | h
    · subst h
      simp [drawPaths, hfail]
    · rw [drawPaths, ih h]
      cases drawOnePath q <;> rfl

/-- C3: a nonempty closed path is drawn by rotating the node stored last
to the front and then emitting every node in order, the point type
normalized to one of line/curve/qcurve/`None` and the smoothness flag
passed through. -/
theorem closed_path_rotates_start (ns : List GSNode) (h : ns ≠ []) :
    drawOnePath ⟨true, ns⟩ =
      some (PenEvent.beginPath ::
        ((ns.getLast h :: ns.dropLast).map
          (fun n => PenEvent.addPoint n.position (normSegmentType n.type)
            n.smooth) ++ [PenEvent.endPath])) ∧
    ∀ n : GSNode, normSegmentType n.type = some "line" ∨
      normSegmentType n.type = some "curve" ∨
      normSegmentType n.type = some "qcurve" ∨
      normSegmentType n.type = none := by
  constructor
  · have hne : ns.isEmpty = false := by
      cases ns with
      | nil => exact absurd rfl h
      | cons a l => rfl
    have hrot : rotateStart ns = ns.getLast h :: ns.dropLast := by
      rw [rotateStart, List.getLast?_eq_getLast ns h]
    simp [drawOnePath, hne, hrot, emitNode]
    rfl
  · intro n
    rw [normSegmentType]
    by_cases h1 : n.type = "line"
    · simp [h1]
    · by_cases h2 : n.type = "curve"
      · simp [h2]
      · by_cases h3 : n.type = "qcurve"
        · simp [h3]
        · simp [h1, h2, h3]

/-- Witness for C3: the closed path with nodes A(line), B(curve), C(curve)
in source order draws as C, then A, then B. -/
theorem closed_path_rotates_start_witness :
    drawOnePath ⟨true, [⟨(0, 0), "line", false⟩, ⟨(1, 1), "curve", false⟩,
        ⟨(2, 2), "curve", true⟩]⟩ =
      some [PenEvent.beginPath,
        PenEvent.addPoint (2, 2) (some "curve") true,
        PenEvent.addPoint (0, 0) (some "line") false,
        PenEvent.addPoint (1, 1) (some "curve") false,
        PenEvent.endPath] := by
  have h := (closed_path_rotates_start [⟨(0, 0), "line", false⟩,
    ⟨(1, 1), "curve", false⟩, ⟨(2, 2), "curve", true⟩] (by decide)).1
  rw [h]
  decide

/-- C4: drawing an open, nonempty path whose first node is an on-curve
line node succeeds, emitting that node as a `move` point; an open path
whose first node is not a line node makes the whole drawing fail with no
partial result. -/
theorem open_path_must_start_with_line (n : GSNode) (rest : List GSNode)
    (ps : List GSPath) :
    (n.type = "line" →
      drawOnePath ⟨false, n :: rest⟩ =
        some (PenEvent.beginPath ::
          PenEvent.addPoint n.position (some "move") false ::
          (rest.map emitNode ++ [PenEvent.endPath]))) ∧
    (n.type ≠ "line" → drawOnePath ⟨false, n :: rest⟩ = none) ∧
    (n.type ≠ "line" → (⟨false, n :: rest⟩ : GSPath) ∈ ps →
      drawPaths ps = none) := by
  refine ⟨fun hline => ?_, fun hbad => ?_, fun hbad hmem => ?_⟩
  · simp [drawOnePath, hline]
  · simp [drawOnePath, hbad]
  · exact drawPaths_none_of_mem ps _ hmem (by simp [drawOnePath, hbad])

/-- Witness for C4: an open path starting with a line node draws a move
point; an open path starting with an off-curve node aborts the drawing of
a whole path list containing it. -/
theorem open_path_must_start_with_line_witness :
    drawOnePath ⟨false, [⟨(3, 4), "line", false⟩]⟩ =
      some [PenEvent.beginPath,
        PenEvent.addPoint (3, 4) (some "move") false, PenEvent.endPath] ∧
    drawPaths [⟨true, [⟨(0, 0), "line", false⟩]⟩,
      ⟨false, [⟨(5, 6), "offcurve", false⟩]⟩] = none := by
  constructor
  · have h := (open_path_must_start_with_line ⟨(3, 4), "line", false⟩ []
      []).1 rfl
    rw [h]
    rfl
  · exact (open_path_must_start_with_line ⟨(5, 6), "offcurve", false⟩ []
      [⟨true, [⟨(0, 0), "line", false⟩]⟩,
        ⟨false, [⟨(5, 6), "offcurve", false⟩]⟩]).2.2
      (by decide) (by decide)

/-! ## Glyph order (`to_ufos`, lines 96-113 and 141-142)

`to_ufos` reads the `public.glyphOrder` override from the first UFO's lib
(empty when absent), snapshots it as a set, appends every source glyph
name not in the snapshot in source iteration order, and stores the final
list into every UFO's lib.
-/

/-- The glyph-order accumulation loop of `to_ufos` (lines 104-113): the
membership test uses the snapshot `sorted_glyphset = set(glyph_order)`
taken before the loop. -/
def computeGlyphOrder (glyphOrderParam srcGlyphs : List String) :
    List String :=
  srcGlyphs.foldl
    (fun acc g => if g ∈ glyphOrderParam then acc else acc ++ [g])
    glyphOrderParam

/-- The `public.glyphOrder` slot of one target font's lib. -/
structure UfoLibStore where
  glyphOrder : Option (List String)
  deriving DecidableEq

/-- Lines 141-142: `ufo.lib[glyphOrder_key] = glyph_order` for every
target font. -/
def storeGlyphOrderAll (fonts : List UfoLibStore) (order : List String) :
    List UfoLibStore :=
  fonts.map (fun f => { f with glyphOrder := some order })

theorem computeGlyphOrder_foldl (ov gs acc : List String) :
    gs.foldl (fun a g => if g ∈ ov then a else a ++ [g]) acc =
      acc ++ gs.filter (fun g => decide (¬ g ∈ ov)) := by
  induction gs generalizing acc with
  | nil => simp
  | cons g gs ih =>
    by_cases h : g ∈ ov
    · simp [List.foldl_cons, h, ih]
    · simp [List.foldl_cons, h, ih]

/-- C8: the final glyph order equals the override names in override
order followed by the remaining source glyph names in source iteration
order, and the list stored into every target font is that same list. -/
theorem glyph_order_override_then_rest
    (ov gs : List String) (fonts : List UfoLibStore) :
    computeGlyphOrder ov gs =
      ov ++ gs.filter (fun g => decide (¬ g ∈ ov)) ∧
    ∀ f ∈ storeGlyphOrderAll fonts (computeGlyphOrder ov gs),
      f.glyphOrder = some (computeGlyphOrder ov gs) := by
  refine ⟨computeGlyphOrder_foldl ov gs ov, fun f hf => ?_⟩
  rcases List.mem_map.mp hf with ⟨f0, _, hmap⟩
  rw [← hmap]

/-- Witness for C8: override `[b, a]` with source glyphs `[a, b, c]`
yields `[b, a, c]`, stored identically into both of two target fonts. -/
theorem glyph_order_override_then_rest_witness :
    computeGlyphOrder ["b", "a"] ["a", "b", "c"] = ["b", "a", "c"] ∧
    storeGlyphOrderAll [⟨none⟩, ⟨some ["x"]⟩]
        (computeGlyphOrder ["b", "a"] ["a", "b", "c"]) =
      [⟨some ["b", "a", "c"]⟩, ⟨some ["b", "a", "c"]⟩] := by
  have h := glyph_order_override_then_rest ["b", "a"] ["a", "b", "c"]
    [⟨none⟩, ⟨some ["x"]⟩]
  have h1 : computeGlyphOrder ["b", "a"] ["a", "b", "c"] =
      ["b", "a", "c"] := by
    rw [h.1]
    decide
  refine ⟨h1, ?_⟩
  have h2 := h.2 ⟨some (computeGlyphOrder ["b", "a"] ["a", "b", "c"])⟩
  rw [h1]
  decide

/-! ## Instance filtering (`to_ufos` lines 65-79,
`filter_instances_by_family` lines 677-688)

An instance's effective `familyName` is the value of its last custom
parameter named `familyName` (`none` when there is no such parameter).
`to_ufos` maps a requested family equal to the source family to a `none`
filter target, any other requested family to itself.
-/

/-- An instance record: its ordered custom parameter list. -/
structure GSInst where
  customParameters : List (String × String)
  deriving DecidableEq

/-- The loop of lines 682-686: the last `familyName` parameter value. -/
def instFamilyName (i : GSInst) : Option String :=
  i.customParameters.foldl
    (fun acc p => if p.1 = "familyName" then some p.2 else acc) none

/-- `filter_instances_by_family`: keep the instances whose effective
family name equals the target. -/
def filterInstancesByFamily (instances : List GSInst)
    (familyName : Option String) : List GSInst :=
  instances.filter (fun i => instFamilyName i = familyName)

/-- Lines 74-79 of `to_ufos`: requesting the source family filters on an
absent override; any other family filters on itself. -/
def instanceFamilyArg (sourceFamily requested : String) : Option String :=
  if requested = sourceFamily then none else some requested

theorem instFamilyName_foldl_none (l : List (String × String))
    (acc : Option String) :
    (l.foldl (fun a p => if p.1 = "familyName" then some p.2 else a) acc
        = none) ↔
      acc = none ∧ ∀ p ∈ l, p.1 ≠ "familyName" := by
  induction l generalizing acc with
  | nil => simp
  | cons p l ih =>
    by_cases h : p.1 = "familyName"
    · simp [List.foldl_cons, h, ih]
    · simp [List.foldl_cons, h, ih, and_assoc]

/-- C9: requesting the source's own family name keeps exactly the
instances with no `familyName` custom parameter; requesting a different
family keeps exactly the instances whose effective `familyName` parameter
equals the requested name. -/
theorem instance_filtering_by_family
    (instances : List GSInst) (sourceFamily requested : String)
    (i : GSInst) :
    (requested = sourceFamily →
      (i ∈ filterInstancesByFamily instances
          (instanceFamilyArg sourceFamily requested) ↔
        i ∈ instances ∧ ∀ p ∈ i.customParameters, p.1 ≠ "familyName")) ∧
    (requested ≠ sourceFamily →
      (i ∈ filterInstancesByFamily instances
          (instanceFamilyArg sourceFamily requested) ↔
        i ∈ instances ∧ instFamilyName i = some requested)) := by
  constructor
  · intro heq
    rw [instanceFamilyArg, if_pos heq]
    rw [filterInstancesByFamily, List.mem_filter]
    have hnone := instFamilyName_foldl_none i.customParameters none
    constructor
    · intro ⟨hm, hv⟩
      exact ⟨hm, (hnone.mp (of_decide_eq_true hv)).2⟩
    · intro ⟨hm, hv⟩
      exact ⟨hm, decide_eq_true (hnone.mpr ⟨rfl, hv⟩)⟩
  · intro hne
    rw [instanceFamilyArg, if_neg hne]
    rw [filterInstancesByFamily, List.mem_filter]
    constructor
    · intro ⟨hm, hv⟩
      exact ⟨hm, of_decide_eq_true hv⟩
    · intro ⟨hm, hv⟩
      exact ⟨hm, decide_eq_true hv⟩

/-- Witness for C9: with one plain instance and one carrying a
`familyName` override, requesting the source family keeps the plain one
and requesting the override family keeps the overridden one. -/
theorem instance_filtering_by_family_witness :
    (⟨[("weightClass", "700")]⟩ : GSInst) ∈
      filterInstancesByFamily
        [⟨[("weightClass", "700")]⟩, ⟨[("familyName", "Other")]⟩]
        (instanceFamilyArg "Fam" "Fam") ∧
    (⟨[("familyName", "Other")]⟩ : GSInst) ∈
      filterInstancesByFamily
        [⟨[("weightClass", "700")]⟩, ⟨[("familyName", "Other")]⟩]
        (instanceFamilyArg "Fam" "Other") := by
  constructor
  · exact ((instance_filtering_by_family
      [⟨[("weightClass", "700")]⟩, ⟨[("familyName", "Other")]⟩]
      "Fam" "Fam" ⟨[("weightClass", "700")]⟩).1 rfl).mpr
      ⟨by decide, by decide⟩
  · exact ((instance_filtering_by_family
      [⟨[("weightClass", "700")]⟩, ⟨[("familyName", "Other")]⟩]
      "Fam" "Other" ⟨[("familyName", "Other")]⟩).2 (by decide)).mpr
      ⟨by decide, by decide⟩

/-! ## Style names (`generate_base_fonts` lines 233-258,
`build_style_name`, `build_stylemap_names`, `_get_linked_style`)

Absent width/weight/custom tokens are embedded as `""` (falsy in Python);
the italic angle is embedded as an `Int`, with `if italic_angle:`
truthiness after sign flip.
-/

/-- Python `' '.join(l)`. -/
def joinSp : List String → String
  | [] => ""
  | [s] => s
  | s :: rest => strCat s (strCat " " (joinSp rest))

/-- `build_style_name` (lines 579-586): join the nonempty tokens of
custom, width, weight and an italic marker, defaulting to Regular. -/
def buildStyleName (width weight custom : String) (isItalic : Bool) :
    String :=
  let joined := joinSp (([custom, width, weight,
    if isItalic then "Italic" else ""]).filter (fun s => s ≠ ""))
  if joined = "" then "Regular" else joined

/-- Python `str.split()` on whitespace (helper for `_get_linked_style`):
tail-worker over the character list, `acc` holding the current word
reversed. -/
def splitWsGo : List Char → List Char → List String
  | [], acc => if acc.isEmpty then [] else [ofChars acc.reverse]
  | c :: cs, acc =>
    if c.isWhitespace then
      if acc.isEmpty then splitWsGo cs []
      else ofChars acc.reverse :: splitWsGo cs []
    else splitWsGo cs (c :: acc)

/-- Python `s.split()` (whitespace runs, no empty parts). -/
def splitWs (s : String) : List String := splitWsGo s.data []

/-- The loop of `_get_linked_style` (lines 284-295): walk the style
tokens from the end, strip the last occurrence of each of
Regular/Bold/Italic whose flag is on, `appendleft` the rest.  The first
argument is the reversed token list, `acc` the deque. -/
def linkedStyleGo :
    List String → Bool → Bool → Bool → List String → List String
  | [], _, _, _, acc => acc
  | p :: ps, isReg, isBold, isItalic, acc =>
    if p = "Regular" ∧ isReg = true then
      linkedStyleGo ps false isBold isItalic acc
    else if p = "Bold" ∧ isBold = true then
      linkedStyleGo ps isReg false isItalic acc
    else if p = "Italic" ∧ isItalic = true then
      linkedStyleGo ps isReg isBold false acc
    else
      linkedStyleGo ps isReg isBold isItalic (p :: acc)

/-- `_get_linked_style` (lines 281-295). -/
def getLinkedStyle (styleName : String) (isBold isItalic : Bool) : String :=
  joinSp (linkedStyleGo (splitWs styleName).reverse
    (!(isBold || isItalic)) isBold isItalic [])

/-- `build_stylemap_names` (lines 298-324), returning
`(styleMapFamilyName, styleMapStyleName)`. -/
def buildStylemapNames (familyName styleName : String)
    (isBold isItalic : Bool) (linkedStyle : Option String) :
    String × String :=
  let smStyle0 := joinSp (([if isBold then "bold" else "",
    if isItalic then "italic" else ""]).filter (fun s => s ≠ ""))
  let smStyle := if smStyle0 = "" then "regular" else smStyle0
  let linked :=
    match linkedStyle with
    | none => getLinkedStyle styleName isBold isItalic
    | some ls =>
      if ls = "" ∨ ls = "Regular" then
        getLinkedStyle styleName isBold isItalic
      else ls
  let smFamily :=
    if linked ≠ "" then strCat familyName (strCat " " linked)
    else familyName
  (smFamily, smStyle)

/-- The master fields consumed by the style logic of
`generate_base_fonts`. -/
structure GSMaster where
  width : String
  weight : String
  custom : String
  italicAngle : Int
  deriving DecidableEq

/-- Lines 222-231: `italic_angle = -master.italicAngle`, italic iff
truthy. -/
def masterIsItalic (m : GSMaster) : Bool := decide (-m.italicAngle ≠ 0)

/-- Lines 243-248: the derived style name (width dropped when exactly
Regular). -/
def masterStyleName (m : GSMaster) : String :=
  buildStyleName (if m.width ≠ "Regular" then m.width else "")
    m.weight m.custom (masterIsItalic m)

/-- Line 252: `is_bold=(styleName == 'Bold')`. -/
def masterIsBold (m : GSMaster) : Bool :=
  decide (masterStyleName m = "Bold")

/-- Lines 249-254: the style-map names derived for one master (no
explicit linked style). -/
def masterStylemapNames (familyName : String) (m : GSMaster) :
    String × String :=
  buildStylemapNames familyName (masterStyleName m) (masterIsBold m)
    (masterIsItalic m) none

/-- C10: the bold flag feeding the style-map names is true only when the
derived style name is exactly the string Bold; any other style name gives
a styleMapStyleName of italic or regular (never containing bold), and a
Bold Italic master (weight Bold, empty width/custom, italic angle set)
gets styleMapStyleName italic with styleMapFamilyName `family + " Bold"`.
-/
theorem stylemap_bold_only_for_exact_bold
    (m : GSMaster) (familyName : String) :
    (masterIsBold m = true ↔ masterStyleName m = "Bold") ∧
    (masterStyleName m ≠ "Bold" →
      (masterStylemapNames familyName m).2 =
        (if masterIsItalic m then "italic" else "regular")) ∧
    (m.weight = "Bold" → m.width = "" → m.custom = "" →
      masterIsItalic m = true →
      masterStylemapNames familyName m =
        (strCat familyName " Bold", "italic")) := by
  refine ⟨by simp [masterIsBold], fun hne => ?_, fun hw hwd hc hi => ?_⟩
  · have hb : masterIsBold m = false := by simp [masterIsBold, hne]
    cases hi : masterIsItalic m <;>
      simp [masterStylemapNames, buildStylemapNames, hb, hi, joinSp]
  · obtain ⟨w, wt, c, ia⟩ := m
    simp only at hw hwd hc
    subst hw
    subst hwd
    subst hc
    have hsn : masterStyleName ⟨"", "Bold", "", ia⟩ = "Bold Italic" := by
      simp [masterStyleName, buildStyleName, hi, joinSp, strCat]
    have hb : masterIsBold ⟨"", "Bold", "", ia⟩ = false := by
      simp [masterIsBold, hsn]
    have hlink : getLinkedStyle "Bold Italic" false true = "Bold" := by
      decide
    have hsp : strCat " " "Bold" = " Bold" := by decide
    simp [masterStylemapNames, buildStylemapNames, hsn, hb, hi, hlink,
      hsp, joinSp]

/-- Witness for C10: a weight-Bold italic master over family Fam gets
style-map names (`Fam Bold`, `italic`). -/
theorem stylemap_bold_only_for_exact_bold_witness :
    masterStylemapNames "Fam" ⟨"", "Bold", "", 10⟩ =
      ("Fam Bold", "italic") := by
  have h := (stylemap_bold_only_for_exact_bold ⟨"", "Bold", "", 10⟩
    "Fam").2.2 rfl rfl rfl (by decide)
  rw [h]
  decide

/-! ## Kerning translation (`load_kerning` lines 610-642,
`remove_rule_if_conflict` lines 645-674)

The source kerning table is an ordered mapping left-key → (right-key →
value); group references are recognized by the anchored regular
expressions `@MMK_L_(.+)` / `@MMK_R_(.+)` and rewritten to
`public.kern1.*` / `public.kern2.*`.  The UFO's groups and flat kerning
pair table are insertion-ordered association lists; a Python `KeyError`
(impossible on the inputs produced by `load_kerning` itself) is modelled
by `none`.
-/

/-- The characters of the literal `@MMK_L_`. -/
def mmkL : List Char := "@MMK_L_".data

/-- The characters of the literal `@MMK_R_`. -/
def mmkR : List Char := "@MMK_R_".data

/-- `re.match` of `lit` followed by `(.+)` against `s`: succeeds when `s`
starts with `lit` followed by at least one non-newline character, the
captured group being the maximal non-newline run. -/
def reMMK (lit : List Char) (s : String) : Option String :=
  let grp := (s.data.drop lit.length).takeWhile (fun c => c ≠ '\n')
  if s.data.take lit.length = lit ∧ grp ≠ [] then some (ofChars grp)
  else none

/-- The per-master UFO state read and written by the kerning pass. -/
structure KernUfo where
  groups : List (String × List String)
  kerning : List ((String × String) × Int)
  deriving DecidableEq

/-- A warning logged by the kerning pass, identified by its payload. -/
inductive KernWarn
  | missingGroup (name : String)
  | conflict (pair : String × String)
      (existingRule newRule : String × String × Int)
  deriving DecidableEq

/-- The `seen` dictionary of the conflict pass: literal pair → rule. -/
abbrev SeenMap := List ((String × String) × (String × String × Int))

/-- Line 657: the literal pair a class member expands to. -/
def memberPair (glyph member : String) (leftIsCls : Bool) :
    String × String :=
  if leftIsCls then (member, glyph) else (glyph, member)

/-- One iteration of the member loop of `remove_rule_if_conflict`
(lines 656-668), accumulating `(new_glyphs, seen, warnings)`. -/
def rrcStep (kerning : List ((String × String) × Int)) (val : Int)
    (rule : String × String × Int) (glyph : String) (leftIsCls : Bool)
    (acc : List String × SeenMap × List KernWarn) (member : String) :
    List String × SeenMap × List KernWarn :=
  let pair := memberPair glyph member leftIsCls
  match alGet acc.2.1 pair with
  | some existingRule =>
    if existingRule.2.2 ≠ val ∧ alGet kerning pair = none then
      (acc.1, acc.2.1,
        acc.2.2 ++ [KernWarn.conflict pair existingRule rule])
    else
      (acc.1 ++ [member], alSet acc.2.1 pair rule, acc.2.2)
  | none => (acc.1 ++ [member], alSet acc.2.1 pair rule, acc.2.2)

/-- Lines 670-674: when members were dropped, delete the class-level pair
and re-insert literal pairs for the remaining members at the class's
value. -/
def rrcApply (kerning : List ((String × String) × Int))
    (originalPair : String × String) (oldGlyphs newGlyphs : List String)
    (glyph : String) (leftIsCls : Bool) (val : Int) :
    List ((String × String) × Int) :=
  if newGlyphs ≠ oldGlyphs then
    newGlyphs.foldl
      (fun k member => alSet k (memberPair glyph member leftIsCls) val)
      (alDel kerning originalPair)
  else kerning

/-- `remove_rule_if_conflict` (lines 645-674); `none` models the
`KeyError` of an absent original pair or class group. -/
def removeRuleIfConflict (ufo : KernUfo) (seen : SeenMap)
    (clsName glyph : String) (leftIsCls : Bool) :
    Option (KernUfo × SeenMap × List KernWarn) :=
  let originalPair :=
    if leftIsCls then (clsName, glyph) else (glyph, clsName)
  match alGet ufo.kerning originalPair with
  | none => none
  | some val =>
    match alGet ufo.groups clsName with
    | none => none
    | some oldGlyphs =>
      let rule : String × String × Int :=
        (originalPair.1, originalPair.2, val)
      let res := oldGlyphs.foldl
        (rrcStep ufo.kerning val rule glyph leftIsCls) ([], seen, [])
      let kerning2 :=
        rrcApply ufo.kerning originalPair oldGlyphs res.1 glyph leftIsCls
          val
      some (⟨ufo.groups, kerning2⟩, res.2.1, res.2.2)

/-- Lines 640-642: the conflict pass over the mixed class/glyph pairs in
reverse collection order, threading `seen` and accumulating warnings. -/
def conflictPass (ufo : KernUfo) (seen : SeenMap)
    (warns : List KernWarn) :
    List (String × String × Bool) → Option (KernUfo × List KernWarn)
  | [] => some (ufo, warns)
  | e :: rest =>
    match removeRuleIfConflict ufo seen e.1 e.2.1 e.2.2 with
    | none => none
    | some res => conflictPass res.1 res.2.1 (warns ++ res.2.2) rest

/-- The inner `for right, kerning_val in pairs.items()` loop of
`load_kerning` (lines 624-638) for one (possibly rewritten) left key,
accumulating `(kerning, class_glyph_pairs, warnings)`. -/
def loadKerningRow (groups : List (String × List String))
    (start : List ((String × String) × Int) ×
      List (String × String × Bool) × List KernWarn)
    (left : String) (leftIsCls : Bool) (pairs : List (String × Int)) :
    List ((String × String) × Int) ×
      List (String × String × Bool) × List KernWarn :=
  pairs.foldl (fun acc rv =>
    match reMMK mmkR rv.1 with
    | some sfx =>
      let right := strCat "public.kern2." sfx
      if alGet groups right = none then
        (acc.1, acc.2.1, acc.2.2 ++ [KernWarn.missingGroup right])
      else
        (alSet acc.1 (left, right) rv.2,
          (if leftIsCls then acc.2.1
            else acc.2.1 ++ [(right, left, false)]),
          acc.2.2)
    | none =>
      (alSet acc.1 (left, rv.1) rv.2,
        (if leftIsCls then acc.2.1 ++ [(left, rv.1, true)] else acc.2.1),
        acc.2.2)) start

/-- The outer loop of `load_kerning` (lines 616-638): rewrite class
references, skip rows whose left class group is missing (with a
warning), and collect the flat pair table plus the mixed
class-glyph pairs. -/
def loadKerningPairs (groups : List (String × List String))
    (data : List (String × List (String × Int))) :
    List ((String × String) × Int) ×
      List (String × String × Bool) × List KernWarn :=
  data.foldl (fun acc row =>
    match reMMK mmkL row.1 with
    | some sfx =>
      let left := strCat "public.kern1." sfx
      if alGet groups left = none then
        (acc.1, acc.2.1, acc.2.2 ++ [KernWarn.missingGroup left])
      else loadKerningRow groups acc left true row.2
    | none => loadKerningRow groups acc row.1 false row.2) ([], [], [])

/-- `load_kerning` (lines 610-642): load all pairs, then run the
conflict pass over the mixed pairs in reverse order. -/
def loadKerning (groups : List (String × List String))
    (data : List (String × List (String × Int))) :
    Option (KernUfo × List KernWarn) :=
  let res := loadKerningPairs groups data
  conflictPass ⟨groups, res.1⟩ [] res.2.2 res.2.1.reverse

/-- C1 counterexample: with groups `public.kern1.A = [a, aa]`, the class
rule `(@MMK_L_A, x) = 10` and the explicit rule `(aa, x) = 20`, the
conflict pass keeps the class-level entry `(public.kern1.A, x)`, creates
no literal `(a, x)` pair, and logs no warning — contrary to the claimed
final pairs, removal and warning. -/
theorem kerning_explicit_override_no_removal_counterexample :
    (loadKerning [("public.kern1.A", ["a", "aa"])]
        [("@MMK_L_A", [("x", 10)]), ("aa", [("x", 20)])]).map
      (fun r => (alGet r.1.kerning ("public.kern1.A", "x"),
        alGet r.1.kerning ("a", "x"), r.2)) =
      some (some 10, none, []) := by
  decide

/-- C1 amended: in that scenario the pair table is left exactly as
loaded, `{(public.kern1.A, x): 10, (aa, x): 20}`, with the class entry
retained, no member expansion, and no warning: a conflict is only
detected between two mixed class rules, and members with an explicit
literal pair are exempt from removal. -/
theorem kerning_explicit_override_keeps_class_entry :
    loadKerning [("public.kern1.A", ["a", "aa"])]
        [("@MMK_L_A", [("x", 10)]), ("aa", [("x", 20)])] =
      some (⟨[("public.kern1.A", ["a", "aa"])],
        [(("public.kern1.A", "x"), 10), (("aa", "x"), 20)]⟩, []) := by
  decide

/-- C2: the conflict pass can alter an explicit glyph-to-glyph pair.
With groups `public.kern1.A = public.kern1.B = [a, aa]`, class rules
`(@MMK_L_A, x) = 10`, `(@MMK_L_B, x) = 30` and the explicit rule
`(aa, x) = 20`: the pair `(aa, x)` is loaded with its source value 20,
member `a` of rule A is dropped for conflicting with rule B, and the
re-insertion step then overwrites the explicit pair `(aa, x)` with the
class value 10. -/
theorem kerning_conflict_pass_overwrites_explicit_pair :
    alGet (loadKerningPairs
        [("public.kern1.A", ["a", "aa"]), ("public.kern1.B", ["a", "aa"])]
        [("@MMK_L_A", [("x", 10)]), ("@MMK_L_B", [("x", 30)]),
          ("aa", [("x", 20)])]).1 ("aa", "x") = some 20 ∧
    (loadKerning
        [("public.kern1.A", ["a", "aa"]), ("public.kern1.B", ["a", "aa"])]
        [("@MMK_L_A", [("x", 10)]), ("@MMK_L_B", [("x", 30)]),
          ("aa", [("x", 20)])]).map
      (fun r => alGet r.1.kerning ("aa", "x")) = some (some 10) := by
  constructor
  · decide
  · decide

/-! ## Filter-string parsing (`parse_glyphs_filter`, lines 432-476)

A semicolon-delimited string: the first segment is the filter name
(required, nonempty), the remaining segments are positional arguments or
`key:value` pairs; the keys include/exclude (case-insensitively) take a
space-or-comma separated name list and are only honoured in the final
position.  Errors are modelled as an accumulated list.
-/

/-- Values produced for positional and keyword arguments. -/
inductive CastVal
  | num (n : Int)
  | boolean (b : Bool)
  | str (s : String)
  deriving DecidableEq

/-- Python `s.lower()` (ASCII case folding). -/
def toLowerStr (s : String) : String := ofChars (s.data.map Char.toLower)

/-- A nonempty run of decimal digits. -/
def isDigitRun (l : List Char) : Bool :=
  decide (l ≠ []) && l.all (fun c => c.isDigit)

/-- An optional minus sign followed by digits. -/
def looksNumeric (s : String) : Bool :=
  match s.data with
  | '-' :: rest => isDigitRun rest
  | l => isDigitRun l

/-- Decimal value of a digit run. -/
def digitsToNat (l : List Char) : Nat :=
  l.foldl (fun n c => n * 10 + (c.toNat - 48)) 0

/-- Integer value of an optionally signed digit run. -/
def parseIntStr (s : String) : Int :=
  match s.data with
  | '-' :: rest => -(digitsToNat rest : Int)
  | l => (digitsToNat l : Int)

/-- Modelled from the spec: `cast_to_number_or_bool` lives in
`glyphsLib.util`, which is not under src/; section 4.1 of the spec says a
bare or keyword value is cast to a number or boolean when it looks
numeric or boolean, else kept as a string.  Numerals are taken to be
optionally minus-signed digit runs and booleans the case-insensitive
literals true/false. -/
def castToNumberOrBool (s : String) : CastVal :=
  if toLowerStr s = "true" then CastVal.boolean true
  else if toLowerStr s = "false" then CastVal.boolean false
  else if looksNumeric s then CastVal.num (parseIntStr s)
  else CastVal.str s

/-- Python `s.split(';')`. -/
def splitSemi : List Char → List (List Char)
  | [] => [[]]
  | c :: cs =>
    if c = ';' then [] :: splitSemi cs
    else
      match splitSemi cs with
      | [] => [[c]]
      | g :: gs => (c :: g) :: gs

/-- Python `s.split(':', 1)` when a colon occurs, else `none`. -/
def splitFirstColon : List Char → Option (List Char × List Char)
  | [] => none
  | c :: cs =>
    if c = ':' then some ([], cs)
    else (splitFirstColon cs).map (fun p => (c :: p.1, p.2))

/-- Helper for `re.split` semantics: drop the empty pieces produced
between adjacent separators, keeping a trailing empty piece. -/
def keepLastEmpties : List (List Char) → List (List Char)
  | [] => []
  | [x] => [x]
  | x :: y :: xs =>
    if x.isEmpty then keepLastEmpties (y :: xs)
    else x :: keepLastEmpties (y :: xs)

/-- Python `re.split('[ ,]+', s)`: segments between maximal runs of
spaces and commas, with possible empty segments only at the ends. -/
def splitSpaceComma (l : List Char) : List String :=
  match l.splitOnP (fun c => c = ' ' ∨ c = ',') with
  | [] => []
  | first :: rest => (first :: keepLastEmpties rest).map ofChars

/-- The structured filter returned by `parse_glyphs_filter`. -/
structure GlyphsFilter where
  name : String
  args : List CastVal
  kwargs : List (String × CastVal)
  includeGlyphs : Option (List String)
  excludeGlyphs : Option (List String)
  deriving DecidableEq

/-- An error logged by `parse_glyphs_filter`. -/
inductive FilterErr
  | missingName (filterStr : String)
  | nonFinalKey (key elem : String)
  deriving DecidableEq

/-- One iteration of the `for idx, elem in enumerate(elements[1:])` loop
of `parse_glyphs_filter` (lines 456-475). -/
def filterStep (lastIdx : Nat) (acc : GlyphsFilter × List FilterErr)
    (ie : Nat × String) : GlyphsFilter × List FilterErr :=
  if ie.2 = "" then acc
  else
    match splitFirstColon ie.2.data with
    | some kv =>
      let key := ofChars kv.1
      let lowKey := toLowerStr key
      if lowKey = "include" ∨ lowKey = "exclude" then
        if ie.1 ≠ lastIdx then
          (acc.1, acc.2 ++ [FilterErr.nonFinalKey key ie.2])
        else if lowKey = "include" then
          (⟨acc.1.name, acc.1.args, acc.1.kwargs,
            some (splitSpaceComma kv.2), acc.1.excludeGlyphs⟩, acc.2)
        else
          (⟨acc.1.name, acc.1.args, acc.1.kwargs, acc.1.includeGlyphs,
            some (splitSpaceComma kv.2)⟩, acc.2)
      else
        (⟨acc.1.name, acc.1.args,
          alSet acc.1.kwargs key (castToNumberOrBool (ofChars kv.2)),
          acc.1.includeGlyphs, acc.1.excludeGlyphs⟩, acc.2)
    | none =>
      (⟨acc.1.name, acc.1.args ++ [castToNumberOrBool ie.2],
        acc.1.kwargs, acc.1.includeGlyphs, acc.1.excludeGlyphs⟩, acc.2)

/-- `parse_glyphs_filter` (lines 432-476): `none` with a logged error
when the filter name segment is empty, else the accumulated structured
filter and any errors for ignored non-final include/exclude keys. -/
def parseGlyphsFilter (filterStr : String) :
    Option GlyphsFilter × List FilterErr :=
  match (splitSemi filterStr.data).map ofChars with
  | [] => (none, [])
  | e0 :: rest =>
    if e0 = "" then (none, [FilterErr.missingName filterStr])
    else
      let res := rest.enum.foldl (filterStep (rest.length - 1))
        (⟨e0, [], [], none, none⟩, [])
      (some res.1, res.2)

/-- C7: a final include segment parses into a name list split on spaces
and commas, keyword segments collect into kwargs; a non-final include is
logged and ignored while the remaining segments still parse; a filter
string with an empty name segment yields no result and logs an error. -/
theorem filter_string_include_final_only (s : String) :
    parseGlyphsFilter "transformations;OffsetX:10;OffsetY:5;include:a,b c"
      = (some ⟨"transformations", [],
          [("OffsetX", CastVal.num 10), ("OffsetY", CastVal.num 5)],
          some ["a", "b", "c"], none⟩, []) ∧
    parseGlyphsFilter "transformations;include:a;OffsetX:10" =
      (some ⟨"transformations", [], [("OffsetX", CastVal.num 10)], none,
        none⟩, [FilterErr.nonFinalKey "include" "include:a"]) ∧
    (s = "" ∨ s.data.head? = some ';' →
      parseGlyphsFilter s = (none, [FilterErr.missingName s])) := by
  refine ⟨by decide, by decide, fun h => ?_⟩
  obtain ⟨l⟩ := s
  rcases h with h | h
  · rw [show String.mk l = "" from h]
    decide
  · cases l with
    | nil => cases h
    | cons c cs =>
      have hc : c = ';' := by
        simpa using h
      subst hc
      simp [parseGlyphsFilter, splitSemi, ofChars]

/-- Witness for C7 at the empty-name input `";OffsetX:10"`. -/
theorem filter_string_include_final_only_witness :
    parseGlyphsFilter ";OffsetX:10" =
      (none, [FilterErr.missingName ";OffsetX:10"]) :=
  (filter_string_include_final_only ";OffsetX:10").2.2
    (Or.inr (by decide))

end GlyphsUfo
